import Mathlib

/-!
Verification development for the power-monitor reading ingestion and usage
aggregation engine (Oinksauce/power-monitor).

The repository ships the React frontend (src/frontend, src/unnamed parts) and
deployment scripts; the backend engine (collector service, reading store,
usage aggregation — `backend/app` per the README) is not part of the provided
sources, so the engine components below are modelled from the specification,
as marked on each definition.  Frontend logic (custom date-range application,
per-weekday / per-hour averaging) is embedded directly from the TypeScript
sources.

Conventions: timestamps are rational numbers of milliseconds (JavaScript
`Date.getTime` style); energies are rationals (exact arithmetic stands in for
the floating-point arithmetic of the implementation); counters are naturals.
-/

namespace PowerMonitor

/-- A stored meter reading: the immutable fact `(meter_id, timestamp,
cumulative_raw)` of the data model (spec section 3). -/
structure Reading where
  meter_id : String
  timestamp : ℚ
  cumulative_raw : ℕ
deriving DecidableEq

/-- Result of the Counter Model `delta` operation (spec section 4.2). -/
inductive DeltaResult where
  | Normal (kwh : ℚ)
  | Reset
  | Rejected
deriving DecidableEq

/-- Modelled from the spec: the Counter Model operation
`delta(prev, next, unitsPerKwh)` of section 4.2 (the backend collector code
is not in the provided sources).  `Rejected` when `next.timestamp <=
prev.timestamp`; `Normal` with `kwh = (next.cumulative_raw -
prev.cumulative_raw) / unitsPerKwh` when the counter did not decrease;
`Reset` (contributing zero energy) when the counter dropped.  The spec leaves
the reset-versus-glitch policy threshold open (section 9); consistently with
the design rationale that a negative kWh is never propagated, every counter
drop is classified `Reset` here. -/
def delta (prev next : Reading) (unitsPerKwh : ℚ) : DeltaResult :=
  if next.timestamp ≤ prev.timestamp then .Rejected
  else if prev.cumulative_raw ≤ next.cumulative_raw then
    .Normal (((next.cumulative_raw : ℚ) - (prev.cumulative_raw : ℚ)) / unitsPerKwh)
  else .Reset

/-- The energy (kWh) an ordered pair of readings contributes to aggregation:
the `Normal` delta, and zero for `Reset` / `Rejected` outcomes. -/
def deltaKwh (unitsPerKwh : ℚ) (prev next : Reading) : ℚ :=
  match delta prev next unitsPerKwh with
  | .Normal kwh => kwh
  | _ => 0

theorem delta_eq_normal (r1 r2 : Reading) (u : ℚ)
    (ht : r1.timestamp < r2.timestamp)
    (hc : r1.cumulative_raw ≤ r2.cumulative_raw) :
    delta r1 r2 u =
      .Normal (((r2.cumulative_raw : ℚ) - (r1.cumulative_raw : ℚ)) / u) := by
  unfold delta
  rw [if_neg (not_le.mpr ht), if_pos hc]

theorem deltaKwh_nonneg (u : ℚ) (hu : 0 < u) (r1 r2 : Reading) :
    0 ≤ deltaKwh u r1 r2 := by
  unfold deltaKwh delta
  split_ifs with h1 h2
  · exact le_refl 0
  · show 0 ≤ ((r2.cumulative_raw : ℚ) - (r1.cumulative_raw : ℚ)) / u
    apply div_nonneg _ (le_of_lt hu)
    have h3 : (r1.cumulative_raw : ℚ) ≤ (r2.cumulative_raw : ℚ) := by
      exact_mod_cast h2
    linarith
  · exact le_refl 0

/-- C1: for readings of one meter with increasing timestamps and a
non-decreasing counter, `delta` yields `Normal` with
`kwh = (r2.cumulative_raw - r1.cumulative_raw) / unitsPerKwh`, and that kWh
is nonnegative (`unitsPerKwh` is a positive conversion constant). -/
theorem delta_normal_of_monotone (r1 r2 : Reading) (u : ℚ)
    (hm : r1.meter_id = r2.meter_id)
    (ht : r1.timestamp < r2.timestamp)
    (hc : r1.cumulative_raw ≤ r2.cumulative_raw)
    (hu : 0 < u) :
    delta r1 r2 u =
      .Normal (((r2.cumulative_raw : ℚ) - (r1.cumulative_raw : ℚ)) / u) ∧
    0 ≤ ((r2.cumulative_raw : ℚ) - (r1.cumulative_raw : ℚ)) / u := by
  constructor
  · exact delta_eq_normal r1 r2 u ht hc
  · apply div_nonneg _ (le_of_lt hu)
    have : (r1.cumulative_raw : ℚ) ≤ (r2.cumulative_raw : ℚ) := by exact_mod_cast hc
    linarith

/-- Witness for C1 at a concrete input. -/
theorem delta_normal_of_monotone_witness :
    delta ⟨"m1", 0, 10⟩ ⟨"m1", 1, 15⟩ 2 =
      .Normal ((((15 : ℕ) : ℚ) - ((10 : ℕ) : ℚ)) / 2) ∧
    0 ≤ (((15 : ℕ) : ℚ) - ((10 : ℕ) : ℚ)) / 2 :=
  delta_normal_of_monotone ⟨"m1", 0, 10⟩ ⟨"m1", 1, 15⟩ 2 rfl (by norm_num)
    (by norm_num) (by norm_num)

/-- C2: a counter drop from 50000 to 12 between two chronologically ordered
readings is classified `Reset` and contributes zero kWh; and in general the
per-interval energy `deltaKwh` handed to the aggregator is never negative,
for any pair of readings. -/
theorem counter_drop_is_reset (m : String) (ts1 ts2 u : ℚ) (r1 r2 : Reading)
    (hts : ts1 < ts2) (hu : 0 < u) :
    delta ⟨m, ts1, 50000⟩ ⟨m, ts2, 12⟩ u = .Reset ∧
    deltaKwh u ⟨m, ts1, 50000⟩ ⟨m, ts2, 12⟩ = 0 ∧
    0 ≤ deltaKwh u r1 r2 := by
  have hres : delta ⟨m, ts1, 50000⟩ ⟨m, ts2, 12⟩ u = .Reset := by
    unfold delta
    rw [if_neg (not_le.mpr hts)]
    norm_num
  refine ⟨hres, ?_, deltaKwh_nonneg u hu r1 r2⟩
  unfold deltaKwh
  rw [hres]

/-- Witness for C2 at a concrete input. -/
theorem counter_drop_is_reset_witness :
    delta ⟨"m1", 0, 50000⟩ ⟨"m1", 1, 12⟩ 1 = .Reset ∧
    deltaKwh 1 ⟨"m1", 0, 50000⟩ ⟨"m1", 1, 12⟩ = 0 ∧
    0 ≤ deltaKwh 1 ⟨"m2", 5, 7⟩ ⟨"m2", 3, 2⟩ :=
  counter_drop_is_reset "m1" 0 1 1 ⟨"m2", 5, 7⟩ ⟨"m2", 3, 2⟩ (by norm_num)
    (by norm_num)

/-- Outcome of a Reading Store upsert (spec section 4.1). -/
inductive UpsertOutcome where
  | inserted
  | duplicate
deriving DecidableEq

/-- Modelled from the spec: the Reading Store upsert
`upsert(meter_id, timestamp, cumulative_raw) -> inserted | duplicate` of
section 4.1 (the backend store code is not in the provided sources).  The
store is the list of accepted readings; a reading whose `(meter_id,
timestamp)` key is already present is a duplicate no-op, anything else is
inserted.  Both the live ingestion path and the bulk import path feed
readings through this single operation. -/
def upsert (store : List Reading) (r : Reading) : List Reading × UpsertOutcome :=
  if store.any (fun x => x.meter_id = r.meter_id ∧ x.timestamp = r.timestamp) then
    (store, .duplicate)
  else (r :: store, .inserted)

/-- State of the store after ingesting reading `r` exactly `n` further times
after a first ingestion, through any sequence of source paths. -/
def reIngest (r : Reading) (n : ℕ) (store : List Reading) : List Reading :=
  match n with
  | 0 => store
  | n + 1 => reIngest r n (upsert store r).1

theorem upsert_after_insert (store : List Reading) (r : Reading) :
    upsert (upsert store r).1 r = ((upsert store r).1, .duplicate) := by
  by_cases h : ∃ x ∈ store, x.meter_id = r.meter_id ∧ x.timestamp = r.timestamp
  · simp [upsert, h]
  · simp [upsert, h]

/-- C3: upsert is idempotent.  After the first ingestion of a triple, every
further re-ingestion of the identical triple — any number of times, through
any source path, since live and import both call the same upsert — returns
the `duplicate` outcome, leaves the store unchanged, and in particular
leaves the stored reading count unchanged. -/
theorem upsert_idempotent (store : List Reading) (r : Reading) (n : ℕ) :
    reIngest r n (upsert store r).1 = (upsert store r).1 ∧
    (upsert (upsert store r).1 r).2 = .duplicate ∧
    (upsert (upsert store r).1 r).1.length = (upsert store r).1.length := by
  refine ⟨?_, by rw [upsert_after_insert], by rw [upsert_after_insert]⟩
  induction n with
  | zero => rfl
  | succ k ih =>
    show reIngest r k (upsert (upsert store r).1 r).1 = (upsert store r).1
    rw [upsert_after_insert]
    exact ih

/-- A derived usage bucket `(timestamp_bucket, kwh, kw)` (spec section 3):
never persisted, recomputed on each query. -/
structure UsagePoint where
  timestamp : ℚ
  kwh : ℚ
  kw : ℚ
deriving DecidableEq

/-- Consecutive reading pairs of a chronologically ordered reading list. -/
def pairs (rs : List Reading) : List (Reading × Reading) := rs.zip rs.tail

/-- Length of the overlap of the time intervals `[a, b]` and `[c, d]`. -/
def ov (a b c d : ℚ) : ℚ := max 0 (min b d - max a c)

/-- Modelled from the spec: the energy one consecutive reading pair
contributes to the bucket `[bs, be)` — the kWh of the pair weighted by the
fraction of its elapsed time that falls inside the bucket (spec
section 4.3, proportional-overlap distribution; the backend aggregator code
is not in the provided sources). -/
def contrib (u bs be : ℚ) (p : Reading × Reading) : ℚ :=
  deltaKwh u p.1 p.2 * ov p.1.timestamp p.2.timestamp bs be /
    (p.2.timestamp - p.1.timestamp)

/-- Total energy a bucket `[bs, be)` collects from a reading sequence. -/
def bucketKwh (u : ℚ) (rs : List Reading) (bs be : ℚ) : ℚ :=
  ((pairs rs).map (contrib u bs be)).sum

/-- Executable ceiling on the rationals. -/
def ratCeil (q : ℚ) : ℤ := -Rat.floor (-q)

/-- Modelled from the spec: number of buckets of the dense series between
`start` and `stop` (spec section 4.3: dense, regularly spaced; `start >=
stop` yields an empty series; the engine tolerates any positive width). -/
def numBuckets (start stop width : ℚ) : ℕ :=
  if start < stop ∧ 0 < width then (ratCeil ((stop - start) / width)).toNat
  else 0

/-- Milliseconds per hour, for converting a bucket width to hours. -/
def msPerHourQ : ℚ := 3600000

/-- Modelled from the spec: the bucket series of one meter of the Usage
Aggregator (spec section 4.3).  The kWh of each interval is distributed across
the buckets it spans proportionally to overlap duration; `kw` is the
kWh of the bucket divided by the bucket duration in hours. -/
def usageSeries (u : ℚ) (rs : List Reading) (start stop width : ℚ) :
    List UsagePoint :=
  (List.range (numBuckets start stop width)).map (fun (k : ℕ) =>
    { timestamp := start + (k : ℚ) * width
      kwh := bucketKwh u rs (start + (k : ℚ) * width)
        (start + (k : ℚ) * width + width)
      kw := bucketKwh u rs (start + (k : ℚ) * width)
        (start + (k : ℚ) * width + width) * (msPerHourQ / width) })

/-- Modelled from the spec: the Reading Store `queryRange` (spec section
4.1): the readings of the meter within `[lo, hi]` in ascending timestamp order,
preceded by at most one anchor reading immediately before `lo`. -/
def queryRange (store : List Reading) (m : String) (lo hi : ℚ) :
    List Reading :=
  let mine := List.insertionSort (fun a b => a.timestamp ≤ b.timestamp)
    (store.filter (fun r => r.meter_id = m))
  let anchor := (mine.filter (fun r => r.timestamp < lo)).getLast?
  anchor.toList ++ mine.filter (fun r => lo ≤ r.timestamp ∧ r.timestamp ≤ hi)

/-- Modelled from the spec: the Usage Aggregator query `usage(meterIds,
start, end, bucketWidth)` returning one series per requested meter (spec
section 4.3). -/
def usageQuery (store : List Reading) (meterIds : List String)
    (start stop width u : ℚ) : List (String × List UsagePoint) :=
  meterIds.map (fun m =>
    (m, usageSeries u (queryRange store m start stop) start stop width))

/-- Total energy computed directly from the first and the last reading of a
sequence, as the conservation property of the spec states it. -/
def directKwh (u : ℚ) : List Reading → ℚ
  | [] => 0
  | a :: t =>
    (((t.getLastD a).cumulative_raw : ℚ) - (a.cumulative_raw : ℚ)) / u

theorem ratCeil_eq (q : ℚ) : ratCeil q = ⌈q⌉ := by
  have h1 : ⌊-q⌋ = -⌈q⌉ := Int.floor_neg
  have h2 : ⌊-q⌋ = Rat.floor (-q) := rfl
  unfold ratCeil
  omega

theorem numBuckets_exact (start width : ℚ) (N : ℕ) (hw : 0 < width) :
    numBuckets start (start + N * width) width = N := by
  unfold numBuckets
  by_cases hN : 0 < N
  · have hNQ : (0 : ℚ) < N := by exact_mod_cast hN
    have hcond : start < start + N * width ∧ 0 < width :=
      ⟨by nlinarith, hw⟩
    rw [if_pos hcond]
    have hq : (start + N * width - start) / width = (N : ℚ) := by
      field_simp
    rw [hq, ratCeil_eq, Int.ceil_natCast]
    exact Int.toNat_natCast N
  · have hN0 : N = 0 := by omega
    subst hN0
    have hcond : ¬(start < start + ((0 : ℕ) : ℚ) * width ∧ 0 < width) := by
      push_cast
      simp
    rw [if_neg hcond]

theorem ov_nonneg (a b c d : ℚ) : 0 ≤ ov a b c d := le_max_left 0 _

theorem ov_degenerate (a b s : ℚ) : ov a b s s = 0 := by
  unfold ov
  apply max_eq_left
  have h1 : min b s ≤ s := min_le_right b s
  have h2 : s ≤ max a s := le_max_right a s
  linarith

theorem ov_split (a b c d e : ℚ) (hab : a ≤ b) (hcd : c ≤ d) (hde : d ≤ e) :
    ov a b c e = ov a b c d + ov a b d e := by
  unfold ov
  simp only [min_def, max_def]
  split_ifs <;> linarith

theorem ov_tiling (a b s width : ℚ) (hab : a ≤ b) (hw : 0 < width) (N : ℕ) :
    ((List.range N).map (fun (k : ℕ) =>
      ov a b (s + (k : ℚ) * width) (s + (k : ℚ) * width + width))).sum
      = ov a b s (s + N * width) := by
  induction N with
  | zero => simp [ov_degenerate]
  | succ n ih =>
    rw [List.range_succ, List.map_append, List.sum_append]
    simp only [List.map_cons, List.map_nil, List.sum_cons, List.sum_nil,
      add_zero]
    rw [ih]
    have hnw : (0 : ℚ) ≤ n * width := by positivity
    rw [← ov_split a b s (s + n * width) (s + n * width + width) hab
      (by linarith) (by linarith)]
    congr 1
    push_cast
    ring

theorem ov_full (a b c d : ℚ) (hca : c ≤ a) (hab : a ≤ b) (hbd : b ≤ d) :
    ov a b c d = b - a := by
  unfold ov
  rw [min_eq_left hbd, max_eq_left hca]
  exact max_eq_right (by linarith)

theorem pairs_chain {R : Reading → Reading → Prop} :
    ∀ rs : List Reading, rs.Chain' R → ∀ p ∈ pairs rs, R p.1 p.2
  | [], _, p, hp => by simp [pairs] at hp
  | [_], _, p, hp => by simp [pairs] at hp
  | a :: b :: t, h, p, hp => by
    rw [List.chain'_cons] at h
    unfold pairs at hp
    simp only [List.tail_cons, List.zip_cons_cons] at hp
    rcases List.mem_cons.mp hp with h1 | h1
    · subst h1
      exact h.1
    · exact pairs_chain (b :: t) h.2 p (by unfold pairs; simpa using h1)

theorem pairs_mem (rs : List Reading) (p : Reading × Reading)
    (hp : p ∈ pairs rs) : p.1 ∈ rs ∧ p.2 ∈ rs := by
  unfold pairs at hp
  have h := List.of_mem_zip hp
  exact ⟨h.1, List.tail_subset rs h.2⟩

theorem pairs_telescope (u : ℚ) :
    ∀ (a : Reading) (t : List Reading),
      ((pairs (a :: t)).map (fun p =>
        ((p.2.cumulative_raw : ℚ) - (p.1.cumulative_raw : ℚ)) / u)).sum
        = (((t.getLastD a).cumulative_raw : ℚ) - (a.cumulative_raw : ℚ)) / u
  | _, [] => by simp [pairs]
  | a, b :: t => by
    have ih := pairs_telescope u b t
    unfold pairs at ih ⊢
    simp only [List.tail_cons, List.zip_cons_cons, List.map_cons,
      List.sum_cons] at ih ⊢
    rw [ih, List.getLastD_cons, div_add_div_same]
    congr 1
    ring

theorem list_sum_map_exchange {α : Type} (l : List ℕ) (ps : List α)
    (F : ℕ → α → ℚ) :
    (l.map (fun k => (ps.map (F k)).sum)).sum
      = (ps.map (fun p => (l.map (fun k => F k p)).sum)).sum := by
  induction ps with
  | nil => simp
  | cons p ps ih =>
    calc (l.map (fun k => ((p :: ps).map (F k)).sum)).sum
        = (l.map (fun k => F k p + (ps.map (F k)).sum)).sum := by
          simp only [List.map_cons, List.sum_cons]
      _ = (l.map (fun k => F k p)).sum
            + (l.map (fun k => (ps.map (F k)).sum)).sum := List.sum_map_add
      _ = (l.map (fun k => F k p)).sum
            + (ps.map (fun q => (l.map (fun k => F k q)).sum)).sum := by
          rw [ih]
      _ = ((p :: ps).map (fun q => (l.map (fun k => F k q)).sum)).sum := by
          simp only [List.map_cons, List.sum_cons]

theorem contrib_total (u start width : ℚ) (N : ℕ) (p : Reading × Reading)
    (hw : 0 < width)
    (hts : p.1.timestamp < p.2.timestamp)
    (hraw : p.1.cumulative_raw ≤ p.2.cumulative_raw)
    (hlo : start ≤ p.1.timestamp)
    (hhi : p.2.timestamp ≤ start + N * width) :
    ((List.range N).map (fun (k : ℕ) =>
        contrib u (start + (k : ℚ) * width) (start + (k : ℚ) * width + width)
          p)).sum
      = ((p.2.cumulative_raw : ℚ) - (p.1.cumulative_raw : ℚ)) / u := by
  have hd : deltaKwh u p.1 p.2
      = ((p.2.cumulative_raw : ℚ) - (p.1.cumulative_raw : ℚ)) / u := by
    unfold deltaKwh
    rw [delta_eq_normal p.1 p.2 u hts hraw]
  have hlen : p.2.timestamp - p.1.timestamp ≠ 0 :=
    ne_of_gt (sub_pos.mpr hts)
  have hmap : (List.range N).map (fun (k : ℕ) =>
        contrib u (start + (k : ℚ) * width) (start + (k : ℚ) * width + width)
          p)
      = (List.range N).map (fun (k : ℕ) =>
        deltaKwh u p.1 p.2 / (p.2.timestamp - p.1.timestamp) *
          ov p.1.timestamp p.2.timestamp (start + (k : ℚ) * width)
            (start + (k : ℚ) * width + width)) := by
    apply List.map_congr_left
    intro k _
    unfold contrib
    ring
  rw [hmap, List.sum_map_mul_left,
    ov_tiling p.1.timestamp p.2.timestamp start width (le_of_lt hts) hw N,
    ov_full p.1.timestamp p.2.timestamp start (start + N * width) hlo
      (le_of_lt hts) hhi,
    div_mul_cancel₀ _ hlen, hd]

/-- C4: energy conservation of bucketing.  For a chronologically sorted,
reset-free reading sequence lying inside the window `[start, start +
N*width]`, the sum of the per-bucket kWh of the bucket series equals the
total kWh computed directly from the first and last readings — exactly, in
the rational-arithmetic model standing in for floating point. -/
theorem bucketing_conserves_energy (u start width : ℚ) (N : ℕ)
    (rs : List Reading) (hu : 0 < u) (hw : 0 < width) (hN : 0 < N)
    (hsorted : rs.Chain' (fun a b => a.timestamp < b.timestamp))
    (hmono : rs.Chain' (fun a b => a.cumulative_raw ≤ b.cumulative_raw))
    (hlo : ∀ r ∈ rs, start ≤ r.timestamp)
    (hhi : ∀ r ∈ rs, r.timestamp ≤ start + N * width) :
    ((usageSeries u rs start (start + N * width) width).map
      UsagePoint.kwh).sum = directKwh u rs := by
  unfold usageSeries
  rw [numBuckets_exact start width N hw, List.map_map]
  have hcomp : ((fun pt => pt.kwh) ∘ fun (k : ℕ) =>
      ({ timestamp := start + (k : ℚ) * width
         kwh := bucketKwh u rs (start + (k : ℚ) * width)
           (start + (k : ℚ) * width + width)
         kw := bucketKwh u rs (start + (k : ℚ) * width)
           (start + (k : ℚ) * width + width) * (msPerHourQ / width) }
        : UsagePoint))
      = fun (k : ℕ) => bucketKwh u rs (start + (k : ℚ) * width)
          (start + (k : ℚ) * width + width) := rfl
  rw [hcomp]
  unfold bucketKwh
  rw [list_sum_map_exchange (List.range N) (pairs rs)
    (fun k p => contrib u (start + (k : ℚ) * width)
      (start + (k : ℚ) * width + width) p)]
  have hpair : ∀ p ∈ pairs rs,
      ((List.range N).map (fun (k : ℕ) =>
        contrib u (start + (k : ℚ) * width) (start + (k : ℚ) * width + width)
          p)).sum
        = ((p.2.cumulative_raw : ℚ) - (p.1.cumulative_raw : ℚ)) / u := by
    intro p hp
    have h1 := pairs_chain rs hsorted p hp
    have h2 := pairs_chain rs hmono p hp
    have h3 := pairs_mem rs p hp
    exact contrib_total u start width N p hw h1 h2 (hlo _ h3.1) (hhi _ h3.2)
  rw [List.map_congr_left hpair]
  cases rs with
  | nil => simp [pairs, directKwh]
  | cons a t =>
    rw [pairs_telescope u a t]
    rfl

/-- Readings used by the C4 witness. -/
def rsW : List Reading := [⟨"m1", 0, 10⟩, ⟨"m1", 2, 14⟩]

/-- Witness for C4 at a concrete input. -/
theorem bucketing_conserves_energy_witness :
    ((usageSeries 1 rsW 0 (0 + ((2 : ℕ) : ℚ) * 1) 1).map
      UsagePoint.kwh).sum = directKwh 1 rsW :=
  bucketing_conserves_energy 1 0 1 2 rsW (by norm_num) (by norm_num)
    (by norm_num)
    (by simp [rsW, List.chain'_cons])
    (by simp [rsW, List.chain'_cons])
    (by simp [rsW])
    (by simp [rsW])

theorem contrib_nonneg (u bs be : ℚ) (hu : 0 < u) (p : Reading × Reading) :
    0 ≤ contrib u bs be p := by
  unfold contrib
  rcases le_or_lt p.2.timestamp p.1.timestamp with h | h
  · have hz : deltaKwh u p.1 p.2 = 0 := by
      unfold deltaKwh delta
      rw [if_pos h]
    rw [hz]
    simp
  · apply div_nonneg
    · exact mul_nonneg (deltaKwh_nonneg u hu p.1 p.2) (ov_nonneg _ _ _ _)
    · linarith

/-- Per-meter series shorthand: the Usage Aggregator output for one meter,
its readings fetched through `queryRange`. -/
def seriesFor (store : List Reading) (m : String) (start stop width u : ℚ) :
    List UsagePoint :=
  usageSeries u (queryRange store m start stop) start stop width

/-- C5: for a meter observed strictly before the window and strictly after
it, a usage query over `[start, start + N*width]` returns exactly `N`
buckets, in ascending bucket-start order, each with nonnegative kWh; buckets
no reading interval overlaps are present with `kwh = 0` and `kw = 0` rather
than omitted, so the series is dense and regularly spaced. -/
theorem dense_bucket_series (store : List Reading) (m : String)
    (u start width : ℚ) (N : ℕ) (hu : 0 < u) (hw : 0 < width)
    (hbefore : ∃ r ∈ store, r.meter_id = m ∧ r.timestamp < start)
    (hafter : ∃ r ∈ store, r.meter_id = m ∧
      start + N * width < r.timestamp) :
    usageQuery store [m] start (start + N * width) width u
      = [(m, seriesFor store m start (start + N * width) width u)] ∧
    (seriesFor store m start (start + N * width) width u).length = N ∧
    (seriesFor store m start (start + N * width) width u).Chain'
      (fun p q => p.timestamp < q.timestamp) ∧
    (∀ pt ∈ seriesFor store m start (start + N * width) width u,
      0 ≤ pt.kwh) ∧
    (∀ pt ∈ seriesFor store m start (start + N * width) width u,
      (∀ p ∈ pairs (queryRange store m start (start + N * width)),
        ov p.1.timestamp p.2.timestamp pt.timestamp (pt.timestamp + width)
          = 0) →
      pt.kwh = 0 ∧ pt.kw = 0) := by
  refine ⟨rfl, ?_, ?_, ?_, ?_⟩
  · unfold seriesFor usageSeries
    rw [List.length_map, List.length_range]
    exact numBuckets_exact start width N hw
  · unfold seriesFor usageSeries
    have hrange : List.Chain' (fun a b : ℕ => a < b)
        (List.range (numBuckets start (start + N * width) width)) := by
      rcases numBuckets start (start + N * width) width with _ | n
      · simp
      · exact (List.chain'_range_succ _ n).mpr fun j _ => Nat.lt_succ_self j
    refine List.chain'_map_of_chain' _ (fun a b hab => ?_) hrange
    show start + (a : ℚ) * width < start + (b : ℚ) * width
    have hq : (a : ℚ) < (b : ℚ) := by exact_mod_cast hab
    nlinarith
  · intro pt hpt
    unfold seriesFor usageSeries at hpt
    obtain ⟨k, _, rfl⟩ := List.mem_map.mp hpt
    show 0 ≤ bucketKwh u (queryRange store m start (start + N * width))
      (start + (k : ℚ) * width) (start + (k : ℚ) * width + width)
    unfold bucketKwh
    apply List.sum_nonneg
    intro x hx
    obtain ⟨p, _, rfl⟩ := List.mem_map.mp hx
    exact contrib_nonneg _ _ _ hu p
  · intro pt hpt hz
    unfold seriesFor usageSeries at hpt
    obtain ⟨k, _, rfl⟩ := List.mem_map.mp hpt
    have hkwh : bucketKwh u (queryRange store m start (start + N * width))
        (start + (k : ℚ) * width) (start + (k : ℚ) * width + width) = 0 := by
      unfold bucketKwh
      apply List.sum_eq_zero
      intro x hx
      obtain ⟨p, hp, rfl⟩ := List.mem_map.mp hx
      have ho := hz p hp
      unfold contrib
      rw [ho]
      simp
    constructor
    · exact hkwh
    · show bucketKwh u (queryRange store m start (start + N * width))
        (start + (k : ℚ) * width) (start + (k : ℚ) * width + width) *
          (msPerHourQ / width) = 0
      rw [hkwh, zero_mul]

/-- Store used by the C5 witness: one reading before and one after the
window `[0, 2]`. -/
def storeW5 : List Reading := [⟨"m1", -1, 5⟩, ⟨"m1", 3, 9⟩]

/-- Witness for C5 at a concrete input. -/
theorem dense_bucket_series_witness :
    (seriesFor storeW5 "m1" 0 (0 + ((2 : ℕ) : ℚ) * 1) 1 1).length = 2 :=
  (dense_bucket_series storeW5 "m1" 1 0 1 2 (by norm_num) (by norm_num)
    ⟨⟨"m1", -1, 5⟩, by simp [storeW5], rfl, by norm_num⟩
    ⟨⟨"m1", 3, 9⟩, by simp [storeW5], rfl, by norm_num⟩).2.1

/-- Embedded from src/frontend/src/app/App.tsx `fetchUsage` (lines 65–71):
with zero active meters the frontend clears the usage series and the error
state without issuing a request; otherwise the aggregator is queried.  The
second component models the error state, which stays null on these paths. -/
def fetchUsage (activeMeters : List String) (store : List Reading)
    (start stop width u : ℚ) :
    List (String × List UsagePoint) × Option String :=
  if activeMeters.isEmpty then ([], none)
  else (usageQuery store activeMeters start stop width u, none)

/-- C8: usage-query edge cases return empty results, not errors: zero
active meters yield an empty result set (and a null error state), and a
query with `start >= end` yields an empty bucket series for each requested
meter.  Both operations are total functions — no error path exists. -/
theorem usage_query_edge_cases (store : List Reading) (ids : List String)
    (start stop width u : ℚ) :
    fetchUsage [] store start stop width u = ([], none) ∧
    (stop ≤ start → usageQuery store ids start stop width u
      = ids.map (fun m => (m, []))) := by
  constructor
  · rfl
  · intro h
    have h0 : numBuckets start stop width = 0 := by
      unfold numBuckets
      rw [if_neg]
      intro hc
      exact absurd hc.1 (not_lt.mpr h)
    unfold usageQuery usageSeries
    rw [h0]
    simp

/-- Witness for C8 at a concrete input. -/
theorem usage_query_edge_cases_witness :
    fetchUsage [] [] 0 0 1 1 = ([], none) ∧
    usageQuery [] ["m1"] 0 0 1 1 = [("m1", [])] :=
  ⟨(usage_query_edge_cases [] [] 0 0 1 1).1, by
    have h := (usage_query_edge_cases [] ["m1"] 0 0 1 1).2 (le_refl 0)
    simpa using h⟩

/-- The two supported import schemas (spec section 4.5). -/
inductive Schema where
  | backup
  | rtlamr
deriving DecidableEq

/-- Header row of the 3-column backup schema. -/
def backupHeader : List String := ["meter_id", "timestamp", "cumulative_raw"]

/-- Modelled from the spec: import schema auto-detection (spec section 4.5;
the backend import code is not in the provided sources): the 3-column
backup schema is recognized by its header row; otherwise a leading 8-column
row selects the rtlamr layout; anything else is unrecognized. -/
def detectSchema : List (List String) → Option Schema
  | [] => none
  | r :: _ =>
    if r = backupHeader then some .backup
    else if r.length = 8 then some .rtlamr
    else none

/-- Parse a decimal numeral cell; any non-numeric cell is rejected. -/
def parseNat (s : String) : Option ℕ :=
  if s.length ≠ 0 ∧ s.data.all (fun c => c.isDigit) then
    some (s.data.foldl (fun acc c => acc * 10 + (c.toNat - 48)) 0)
  else none

/-- Modelled from the spec: per-row parsing for each schema (spec section
4.5): backup rows are `meter_id,timestamp,cumulative_raw`; rtlamr rows
carry the timestamp in column 0, the meter id in column 3 and the
cumulative raw value in column 7.  Timestamp cells are modelled as numeric.
A row of the wrong column count or with a non-numeric value is structurally
invalid and parses to `none`. -/
def parseRow (sch : Schema) (row : List String) : Option Reading :=
  match sch with
  | .backup =>
    match row with
    | [mid, ts, raw] =>
      match parseNat ts, parseNat raw with
      | some t, some c => some ⟨mid, (t : ℚ), c⟩
      | _, _ => none
    | _ => none
  | .rtlamr =>
    match row with
    | [ts, _, _, mid, _, _, _, raw] =>
      match parseNat ts, parseNat raw with
      | some t, some c => some ⟨mid, (t : ℚ), c⟩
      | _, _ => none
    | _ => none

/-- Running state of one import job (spec section 3, ImportJob). -/
structure ImportState where
  store : List Reading
  imported : ℕ
  duplicates : ℕ
  skipped : ℕ
  meters : List String
deriving DecidableEq

/-- Modelled from the spec: ingesting one data row through the shared
validation and dedup path (spec section 4.5): a structurally invalid row is
counted as skipped and is never fatal; a valid row goes through the Reading
Store upsert, counting insertions, duplicates and distinct meters. -/
def importRow (sch : Schema) (st : ImportState) (row : List String) :
    ImportState :=
  match parseRow sch row with
  | none => { st with skipped := st.skipped + 1 }
  | some r =>
    let meters := if r.meter_id ∈ st.meters then st.meters
      else r.meter_id :: st.meters
    match upsert st.store r with
    | (s, .inserted) =>
      { store := s, imported := st.imported + 1,
        duplicates := st.duplicates, skipped := st.skipped, meters := meters }
    | (s, .duplicate) =>
      { store := s, imported := st.imported,
        duplicates := st.duplicates + 1, skipped := st.skipped,
        meters := meters }

/-- Data rows of a recognized file: the backup header row is not data. -/
def dataRows (sch : Schema) (rows : List (List String)) :
    List (List String) :=
  match sch with
  | .backup => rows.tail
  | .rtlamr => rows

/-- Terminal summary of an import job (spec section 3, ImportJob). -/
structure Summary where
  rows_total : ℕ
  imported : ℕ
  skipped : ℕ
  duplicates : ℕ
  meters_seen : ℕ
deriving DecidableEq

/-- Fresh import-job state over the current store. -/
def initState (store : List Reading) : ImportState := ⟨store, 0, 0, 0, []⟩

/-- Terminal summary assembled from the final import state. -/
def mkSummary (total : ℕ) (st : ImportState) : Summary :=
  ⟨total, st.imported, st.skipped, st.duplicates, st.meters.length⟩

/-- Modelled from the spec: the non-streaming Bulk Import Pipeline (spec
section 4.5): detect the schema — failing wholesale, before touching the
store, when neither schema matches — then feed every data row through the
shared path and return the final store with the terminal summary. -/
def importFile (store : List Reading) (rows : List (List String)) :
    List Reading × Except String Summary :=
  match detectSchema rows with
  | none => (store, .error "unrecognized format")
  | some sch =>
    let st := (dataRows sch rows).foldl (importRow sch) (initState store)
    (st.store, .ok (mkSummary (dataRows sch rows).length st))

/-- C6: bulk import is atomic on schema failure.  A file matching neither
schema fails with the single "unrecognized format" error and the store is
returned unchanged — zero rows inserted; a recognized file always produces
a summary, never an error; and a structurally invalid row only increments
the skipped counter, leaving store and other counters untouched. -/
theorem import_atomic_on_schema_failure (store : List Reading)
    (rows rows2 : List (List String)) (sch : Schema) (st : ImportState)
    (row : List String)
    (h1 : detectSchema rows = none)
    (h2 : detectSchema rows2 = some sch)
    (h3 : parseRow sch row = none) :
    importFile store rows = (store, .error "unrecognized format") ∧
    (importFile store rows2).2.isOk = true ∧
    importRow sch st row = { st with skipped := st.skipped + 1 } := by
  refine ⟨?_, ?_, ?_⟩
  · unfold importFile
    rw [h1]
  · unfold importFile
    rw [h2]
    rfl
  · unfold importRow
    rw [h3]

/-- Unrecognized two-column file used by the C6 witness. -/
def rowsBadW : List (List String) := [["x", "y"]]

/-- Recognized backup file with one structurally invalid row, used by the
C6 witness. -/
def rowsOkW : List (List String) :=
  [["meter_id", "timestamp", "cumulative_raw"], ["m1", "notanumber", "5"]]

/-- Witness for C6 at a concrete input. -/
theorem import_atomic_on_schema_failure_witness :
    importFile [] rowsBadW = ([], .error "unrecognized format") ∧
    (importFile [] rowsOkW).2.isOk = true ∧
    importRow .backup (initState []) ["m1", "notanumber", "5"]
      = { initState [] with skipped := (initState []).skipped + 1 } :=
  import_atomic_on_schema_failure [] rowsBadW rowsOkW .backup (initState [])
    ["m1", "notanumber", "5"] (by decide) (by decide) (by decide)

/-- One incremental progress event of the streaming import (spec 4.5). -/
structure Progress where
  rows_processed : ℕ
  imported : ℕ
  duplicates : ℕ
deriving DecidableEq

/-- Modelled from the spec: the streaming Bulk Import Pipeline (spec
section 4.5): the identical ingestion logic as `importFile`, additionally
emitting one progress event per processed row before the terminal
summary. -/
def importStream (store : List Reading) (rows : List (List String)) :
    List Progress × (List Reading × Except String Summary) :=
  match detectSchema rows with
  | none => ([], (store, .error "unrecognized format"))
  | some sch =>
    let res := (dataRows sch rows).foldl
      (fun acc row =>
        let st := importRow sch acc.2.1 row
        (acc.1 ++ [⟨acc.2.2 + 1, st.imported, st.duplicates⟩], st,
          acc.2.2 + 1))
      (([] : List Progress), initState store, 0)
    (res.1, (res.2.1.store, .ok (mkSummary (dataRows sch rows).length
      res.2.1)))

theorem streamFold_state (sch : Schema) :
    ∀ (rows : List (List String)) (evs : List Progress) (st : ImportState)
      (n : ℕ),
      (rows.foldl
        (fun acc row =>
          let st2 := importRow sch acc.2.1 row
          (acc.1 ++ [⟨acc.2.2 + 1, st2.imported, st2.duplicates⟩], st2,
            acc.2.2 + 1))
        (evs, st, n)).2.1
        = rows.foldl (importRow sch) st
  | [], _, _, _ => rfl
  | row :: rows, evs, st, n => by
    simp only [List.foldl_cons]
    exact streamFold_state sch rows _ _ _

/-- C7: streaming and non-streaming import are equivalent.  For every input
file, the terminal result of the streaming pipeline — final store and
terminal summary counts — equals the result of the non-streaming pipeline; the
two modes differ only in the incremental progress events, so the boundary
layer (src/unnamed/part_001, `tryNonStreaming` fallback in the frontend)
may fall back from streaming to non-streaming without changing the
outcome. -/
theorem streaming_equals_non_streaming (store : List Reading)
    (rows : List (List String)) :
    (importStream store rows).2 = importFile store rows := by
  unfold importStream importFile
  cases hdet : detectSchema rows with
  | none => rfl
  | some sch =>
    simp only []
    rw [streamFold_state sch (dataRows sch rows) [] (initState store) 0]

/-- Embedded from src/frontend Header component (src/unnamed/part_006,
function handleApplyCustom, lines 57–67; the weekday-chart variant in
src/unnamed/part_002 lines 96–106 is identical): the two picked dates are
applied through onCustomRangeChange, swapped when the user picked them in
reverse order.  Dates are modelled as integer time values. -/
def handleApplyCustom (start stop : ℤ) : ℤ × ℤ :=
  if stop < start then (stop, start) else (start, stop)

/-- C9: applying a custom date range always yields a normalized range: the
applied pair satisfies start <= end, and entering the two dates in either
order applies the same range. -/
theorem custom_range_normalized (d1 d2 : ℤ) :
    (handleApplyCustom d1 d2).1 ≤ (handleApplyCustom d1 d2).2 ∧
    handleApplyCustom d1 d2 = handleApplyCustom d2 d1 := by
  unfold handleApplyCustom
  split_ifs with h1 h2 h3 <;> simp_all <;> omega

/-- Milliseconds per day, for the chart date arithmetic. -/
def msPerDay : ℤ := 86400000

/-- Milliseconds per hour, integer version for the chart arithmetic. -/
def msPerHourZ : ℤ := 3600000

/-- JavaScript `Date.getDay` (weekday index 0–6, Sunday first) of an
epoch-milliseconds time value; the Unix epoch fell on a Thursday (index 4).
The model uses UTC where the browser uses its local zone. -/
def jsGetDay (t : ℤ) : ℕ := ((t.fdiv msPerDay + 4).emod 7).toNat

/-- JavaScript `Date.getHours` (0–23) of an epoch-milliseconds value. -/
def jsGetHours (t : ℤ) : ℕ := ((t.fdiv msPerHourZ).emod 24).toNat

/-- Embedded from src/frontend/src/components/UsageByWeekdayChart.tsx
`countWeekdaysInRange` (identically in src/unnamed/part_002 and part_003):
the loop floors the start to its calendar day, extends the end to the last
instant of its day, and counts one occurrence per day, keyed by weekday. -/
def countWeekdaysInRange (start stop : ℤ) (w : ℕ) : ℕ :=
  ((List.range (stop.fdiv msPerDay - start.fdiv msPerDay + 1).toNat).map
    (fun i => start.fdiv msPerDay + (i : ℤ))).countP
    (fun d => ((d + 4).emod 7).toNat == w)

/-- Embedded from src/frontend/src/components/UsageByHourChart.tsx
`countHoursInRange`: the loop floors the start to its hour and counts one
occurrence per hour step while the step stays at or before the range
end. -/
def countHoursInRange (start stop : ℤ) (hh : ℕ) : ℕ :=
  ((List.range
      (stop.fdiv msPerHourZ - start.fdiv msPerHourZ + 1).toNat).map
    (fun i => start.fdiv msPerHourZ + (i : ℤ))).countP
    (fun h => (h.emod 24).toNat == hh)

/-- One usage point as the charts consume it: an epoch-milliseconds bucket
timestamp and its kWh value. -/
structure ChartPoint where
  timestamp : ℤ
  kwh : ℚ
deriving DecidableEq

/-- Accumulated per-slot kWh sums as the charts build them: a fold over the
series points adding the kWh of each point at its slot (weekday or hour),
embedded from the sumByMeterByDay / sumByMeterByHour accumulation loops. -/
def accSlotSums (slot : ℤ → ℕ) (points : List ChartPoint) : ℕ → ℚ :=
  points.foldl
    (fun acc p => fun s =>
      if s = slot p.timestamp then acc s + p.kwh else acc s)
    (fun _ => 0)

/-- JavaScript `Math.round` (rounds half toward positive infinity). -/
def jsRound (q : ℚ) : ℤ := ⌊q + 1 / 2⌋

/-- Rounding to two decimals, as `Math.round(x * 100) / 100`. -/
def round2 (q : ℚ) : ℚ := ((jsRound (q * 100) : ℤ) : ℚ) / 100

/-- Embedded from src/frontend/src/components/UsageByWeekdayChart.tsx row
construction (lines 67–79): a weekday cell is the accumulated sum for that
weekday divided by the occurrence count of that weekday and rounded to two
decimals, guarded to exactly 0 when the count is zero. -/
def weekdayCell (points : List ChartPoint) (start stop : ℤ) (w : ℕ) : ℚ :=
  let count := countWeekdaysInRange start stop w
  if 0 < count then
    round2 (accSlotSums jsGetDay points w / (count : ℚ))
  else 0

/-- Embedded from src/frontend/src/components/UsageByHourChart.tsx row
construction (lines 70–82): the hour-of-day analogue of `weekdayCell`. -/
def hourCell (points : List ChartPoint) (start stop : ℤ) (hh : ℕ) : ℚ :=
  let count := countHoursInRange start stop hh
  if 0 < count then
    round2 (accSlotSums jsGetHours points hh / (count : ℚ))
  else 0

/-- The kWh total a series contributes to one weekday or hour slot, stated
directly as a filtered sum (the reading of the cell value the claim states). -/
def slotSum (slot : ℤ → ℕ) (points : List ChartPoint) (s : ℕ) : ℚ :=
  ((points.filter (fun p => slot p.timestamp == s)).map ChartPoint.kwh).sum

theorem accSlotSums_fold (slot : ℤ → ℕ) :
    ∀ (points : List ChartPoint) (acc : ℕ → ℚ) (s : ℕ),
      (points.foldl
        (fun a p => fun t =>
          if t = slot p.timestamp then a t + p.kwh else a t) acc) s
        = acc s + slotSum slot points s
  | [], acc, s => by simp [slotSum]
  | p :: ps, acc, s => by
    simp only [List.foldl_cons]
    rw [accSlotSums_fold slot ps _ s]
    unfold slotSum
    by_cases h : slot p.timestamp = s
    · rw [List.filter_cons_of_pos (by simpa using h), if_pos h.symm]
      simp only [List.map_cons, List.sum_cons]
      ring
    · rw [List.filter_cons_of_neg (by simpa using h),
        if_neg (fun hs => h hs.symm)]

theorem accSlotSums_eq_slotSum (slot : ℤ → ℕ) (points : List ChartPoint)
    (s : ℕ) : accSlotSums slot points s = slotSum slot points s := by
  unfold accSlotSums
  rw [accSlotSums_fold slot points (fun _ => 0) s, zero_add]

/-- C10: the per-weekday and per-hour average chart cells never divide by
zero: when the range contains at least one occurrence of the weekday
(hour), the cell equals the kWh sum for that slot divided by the occurrence
count and rounded to two decimals; when the range contains no occurrence,
the cell is exactly 0. -/
theorem average_cells_safe (points : List ChartPoint) (start stop : ℤ)
    (w hh : ℕ) :
    weekdayCell points start stop w
      = (if 0 < countWeekdaysInRange start stop w
        then round2 (slotSum jsGetDay points w /
          ((countWeekdaysInRange start stop w : ℕ) : ℚ))
        else 0) ∧
    hourCell points start stop hh
      = (if 0 < countHoursInRange start stop hh
        then round2 (slotSum jsGetHours points hh /
          ((countHoursInRange start stop hh : ℕ) : ℚ))
        else 0) := by
  constructor
  · unfold weekdayCell
    rw [accSlotSums_eq_slotSum]
  · unfold hourCell
    rw [accSlotSums_eq_slotSum]

end PowerMonitor
